import Mathlib

set_option maxRecDepth 8000

/-!
Verification of the ZyButler command-synthesis engine (src/ZyButler.py).

This file gives a shallow embedding of the validation and command-synthesis
core of the repository: the token validator (parse_vars), the two reference
extractors (parse_sttl_block, parse_sttl_ids_any), the flag tokenizer
(parse_flags, with a model of Python's shlex.split in POSIX mode), the
ZybotCommand record with its argument-list construction (build_args) and its
display rendering (display_command), and the unified build_command function
(note: ZyButler.py defines build_command twice; the second definition at
line 279 shadows the first at line 271, so the effective build_command takes
a list of already-extracted ids and performs no reference validation; both
are embedded below).

Strings are modelled at ASCII level: Python's str.strip / str.split / regex
classes \s, \d, \w and str.isalnum are embedded with their ASCII meaning,
which is exact on every input the program's own format guide documents.
-/

namespace ZyButler

/-- Whitespace class of Python's str.strip / str.split and the regex class
backslash-s, restricted to ASCII. -/
def py_ws (c : Char) : Bool :=
  c == ' ' || c == '\t' || c == '\n' || c == '\r' || c == '\x0b' || c == '\x0c'

/-- Model of Python str.strip with no arguments: remove leading and trailing
whitespace. -/
def strip_chars (l : List Char) : List Char :=
  ((l.dropWhile py_ws).reverse.dropWhile py_ws).reverse

/-- Model of Python str.strip at String level. -/
def py_strip (s : String) : String :=
  String.mk (strip_chars s.data)

/-- Helper for py_split_ws: accumulate the current word (reversed) while
splitting on whitespace runs. -/
def py_split_aux : List Char → List Char → List (List Char)
  | [], acc => if acc.isEmpty then [] else [acc.reverse]
  | c :: rest, acc =>
    if py_ws c then (if acc.isEmpty then [] else [acc.reverse]) ++ py_split_aux rest []
    else py_split_aux rest (c :: acc)

/-- Model of Python str.split with no arguments: split on runs of whitespace,
discarding empty pieces. -/
def py_split_ws (l : List Char) : List (List Char) :=
  py_split_aux l []

/-- Model of the list concatenation performed by repeated list.extend calls:
concatenate the images of f over l. -/
def concat_map (f : α → List β) : List α → List β
  | [] => []
  | x :: xs => f x ++ concat_map f xs

/-- Is an Except value a success? -/
def exOk : Except ε α → Bool
  | .ok _ => true
  | .error _ => false

/-! Constants from ZyButler.py. -/

/-- MIN_SERIAL_LEN constant: minimum length for DUT serial validation. -/
def MIN_SERIAL_LEN : Nat := 10

/-- ALLOWED_NON_DUT_KEYS constant. -/
def ALLOWED_NON_DUT_KEYS : List String := ["TESTDIR"]

/-! Regex embeddings.  Each Python compiled pattern of ZyButler.py is
embedded as an executable matcher over character lists. -/

/-- Key character class of VAR_PAIR_PATTERN: [A-Za-z0-9_]. -/
def is_key_char (c : Char) : Bool :=
  c.isAlphanum || c == '_'

/-- Embedding of VAR_PAIR_PATTERN = ^[A-Za-z0-9_]+:[^\s]+$ applied by
re.match.  The dollar anchor also matches just before one trailing
newline, as in Python. -/
def var_pair_match (l0 : List Char) : Bool :=
  let l := if l0.getLast? == some '\n' then l0.dropLast else l0
  let key := l.takeWhile is_key_char
  match l.dropWhile is_key_char with
  | ':' :: v => !key.isEmpty && !v.isEmpty && v.all (fun c => !(py_ws c))
  | _ => false

/-- Embedding of DUT_KEY_PATTERN = ^DUT(\d+)$ with re.IGNORECASE. -/
def dut_key_match (l : List Char) : Bool :=
  match l with
  | c1 :: c2 :: c3 :: ds =>
    c1.toUpper == 'D' && c2.toUpper == 'U' && c3.toUpper == 'T' &&
      !ds.isEmpty && ds.all Char.isDigit
  | _ => false

/-- Embedding of STTL_BLOCK_PATTERN = ^id:\((.*)\)$ with re.IGNORECASE,
applied by re.match to the stripped input.  The dot does not cross a
newline, so a newline inside the body makes the whole match fail; the
greedy group ends at the last closing parenthesis.  Returns the group. -/
def sttl_block_match (l : List Char) : Option (List Char) :=
  match l with
  | c1 :: c2 :: c3 :: c4 :: rest =>
    if c1.toLower == 'i' && c2.toLower == 'd' && c3 == ':' && c4 == '(' then
      match rest.reverse with
      | rpar :: bodyRev =>
        if rpar == ')' && !(bodyRev.contains '\n') then some bodyRev.reverse else none
      | [] => none
    else none
  | _ => none

/-- Embedding of TOKEN_PATTERN = ^STTL/STTL-(\d+)$ (case sensitive).
Returns the captured digit group. -/
def sttl_token_match (t : List Char) : Option (List Char) :=
  match t with
  | 'S' :: 'T' :: 'T' :: 'L' :: '/' :: 'S' :: 'T' :: 'T' :: 'L' :: '-' :: ds =>
    if !ds.isEmpty && ds.all Char.isDigit then some ds else none
  | _ => none

/-! Parsing helpers of ZyButler.py. -/

/-- Loop body of parse_sttl_block: validate each whitespace token against
TOKEN_PATTERN, canonicalize to STTL-digits, and skip duplicates (the seen
set is the list of ids accepted so far). -/
def sttl_loop : List (List Char) → List String → Except String (List String)
  | [], _ => .ok []
  | tok :: rest, seen =>
    match sttl_token_match tok with
    | none => .error ("Malformed STTL token: " ++ String.mk tok)
    | some ds =>
      let sid := "STTL-" ++ String.mk ds
      if sid ∈ seen then sttl_loop rest seen
      else do
        let more ← sttl_loop rest (sid :: seen)
        .ok (sid :: more)

/-- Embedding of parse_sttl_block: strict-mode reference extraction. -/
def parse_sttl_block (raw : String) : Except String (List String) :=
  match sttl_block_match (strip_chars raw.data) with
  | none => .error "STTL block must match id:(STTL/STTL-<id> ...)"
  | some body0 =>
    let body := strip_chars body0
    if body = [] then .error "STTL block empty"
    else
      match sttl_loop (py_split_ws body) [] with
      | .error e => .error e
      | .ok ordered =>
        if ordered = [] then .error "No valid STTL tokens parsed" else .ok ordered

/-- Embedding of normalize_key: str.upper, ASCII. -/
def upper_str (l : List Char) : List Char :=
  l.map Char.toUpper

/-- Model of kv.split(a colon, 1): split at the first colon. -/
def split_first_colon : List Char → (List Char × List Char)
  | [] => ([], [])
  | c :: rest =>
    if c == ':' then ([], rest)
    else
      let p := split_first_colon rest
      (c :: p.1, p.2)

/-- Model of Python str.isalnum (ASCII): non-empty and every character
alphanumeric. -/
def value_isalnum (l : List Char) : Bool :=
  !l.isEmpty && l.all Char.isAlphanum

/-- Loop body of parse_vars over the raw KEY:VALUE tokens. -/
def parse_vars_loop : List String → Except String (List (String × String))
  | [] => .ok []
  | kv :: rest =>
    if !(var_pair_match kv.data) then .error ("Invalid KEY:VALUE format: " ++ kv)
    else
      let key := (split_first_colon kv.data).1
      let value := (split_first_colon kv.data).2
      let key_u := upper_str key
      if dut_key_match key_u then
        if !(value_isalnum value) || value.length < MIN_SERIAL_LEN then
          .error ("Invalid DUT serial for " ++ String.mk key ++
            ": must be alphanumeric length >= " ++ toString MIN_SERIAL_LEN)
        else do
          let more ← parse_vars_loop rest
          .ok ((String.mk key_u, String.mk value) :: more)
      else if String.mk key_u ∈ ALLOWED_NON_DUT_KEYS then do
        let more ← parse_vars_loop rest
        .ok ((String.mk key_u, String.mk value) :: more)
      else .error ("Unknown variable key: " ++ String.mk key)

/-- Embedding of parse_vars. -/
def parse_vars (raw_tokens : List String) (allow_empty : Bool) :
    Except String (List (String × String)) :=
  if raw_tokens.isEmpty then
    if allow_empty then .ok [] else .error "No variables provided"
  else parse_vars_loop raw_tokens

/-! Model of Python shlex.split in POSIX mode (whitespace_split, no
comments), used by parse_flags.  Single quotes are fully literal; inside
double quotes a backslash escapes only a double quote or a backslash;
outside quotes a backslash makes the next character literal.  An
unterminated quote or a trailing escape is a failure (ValueError). -/

/-- shlex whitespace set (space, tab, carriage return, newline). -/
def shlex_ws (c : Char) : Bool :=
  c == ' ' || c == '\t' || c == '\r' || c == '\n'

/-- Consume a single-quoted section; acc is the token so far, reversed. -/
def take_single_quote : List Char → List Char → Option (List Char × List Char)
  | [], _ => none
  | c :: rest, acc =>
    if c == '\'' then some (acc, rest) else take_single_quote rest (c :: acc)

/-- Consume a double-quoted section; acc is the token so far, reversed. -/
def take_double_quote : List Char → List Char → Option (List Char × List Char)
  | [], _ => none
  | c :: rest, acc =>
    if c == '"' then some (acc, rest)
    else if c == '\\' then
      match rest with
      | [] => none
      | e :: rest2 =>
        if e == '"' || e == '\\' then take_double_quote rest2 (e :: acc)
        else take_double_quote rest2 (e :: '\\' :: acc)
    else take_double_quote rest (c :: acc)

/-- Main shlex state machine; fuel bounds the recursion and is fixed to the
input length, which each step strictly decreases in characters. -/
def shlex_aux : Nat → List Char → List Char → Bool → Option (List String)
  | _, [], acc, started => some (if started then [String.mk acc.reverse] else [])
  | 0, _ :: _, _, _ => none
  | fuel + 1, c :: rest, acc, started =>
    if shlex_ws c then
      if started then
        match shlex_aux fuel rest [] false with
        | none => none
        | some toks => some (String.mk acc.reverse :: toks)
      else shlex_aux fuel rest [] false
    else if c == '\'' then
      match take_single_quote rest acc with
      | none => none
      | some (acc2, rest2) => shlex_aux fuel rest2 acc2 true
    else if c == '"' then
      match take_double_quote rest acc with
      | none => none
      | some (acc2, rest2) => shlex_aux fuel rest2 acc2 true
    else if c == '\\' then
      match rest with
      | [] => none
      | e :: rest2 => shlex_aux fuel rest2 (e :: acc) true
    else shlex_aux fuel rest (c :: acc) true

/-- Model of shlex.split(spec) in POSIX mode; none models the ValueError
raised on an unterminated quotation or escape. -/
def shlex_split (s : String) : Option (List String) :=
  shlex_aux s.data.length s.data [] false

/-- Inner token check of parse_flags: reject the reserved markers. -/
def check_flag_tokens : List String → Except String (List String)
  | [] => .ok []
  | t :: ts =>
    if t == "-v" || t == "-t" then
      .error ("Disallowed token in --flag specification: " ++ t)
    else do
      let more ← check_flag_tokens ts
      .ok (t :: more)

/-- Embedding of parse_flags: expand flag specifications into individual
argument tokens.  A shlex failure propagates (in Python, as an uncaught
ValueError), modelled as an error value here. -/
def parse_flags : List String → Except String (List String)
  | [] => .ok []
  | spec :: rest =>
    if (strip_chars spec.data).isEmpty then parse_flags rest
    else
      match shlex_split spec with
      | none => .error "No closing quotation"
      | some toks => do
        let ts ← check_flag_tokens toks
        let more ← parse_flags rest
        .ok (ts ++ more)

/-! The ZybotCommand dataclass and its renderings. -/

/-- Embedding of the ZybotCommand dataclass.  The flags field default None
behaves as the empty list in build_args and is modelled as a list. -/
structure ZybotCommand where
  vars : List (String × String)
  sttls : List String
  path : Option String := none
  flags : List String := []
deriving DecidableEq, Repr

/-- Embedding of ZybotCommand.build_args: base token, flags, variables with
the -v marker, references with the -t marker and a star suffix, then the
path when it is truthy (present and non-empty). -/
def ZybotCommand.build_args (c : ZybotCommand) : List String :=
  let args := ["zybot"] ++ c.flags
  let args := c.vars.foldl (fun a kv => a ++ ["-v", kv.1 ++ ":" ++ kv.2]) args
  let args := c.sttls.foldl (fun a sid => a ++ ["-t", sid ++ "*"]) args
  match c.path with
  | some p => if p = "" then args else args ++ [p]
  | none => args

/-- Embedding of the display loop of ZybotCommand.display_command: walk the
raw argument list and re-emit it, wrapping in double quotes the token that
immediately follows a -t marker. -/
def display_loop : List String → List String
  | [] => []
  | token :: rest =>
    if token == "-t" then
      match rest with
      | pattern :: rest2 =>
        token :: ("\"" ++ pattern ++ "\"") :: display_loop rest2
      | [] => [token]
    else token :: display_loop rest

/-- Model of the space-join performed on the display list. -/
def join_spaces : List String → String
  | [] => ""
  | [t] => t
  | t :: u :: rest => t ++ " " ++ join_spaces (u :: rest)

/-- Embedding of ZybotCommand.display_command. -/
def ZybotCommand.display_command (c : ZybotCommand) : String :=
  join_spaces (display_loop c.build_args)

/-- Model of the Python expression (path or None): an empty path string
collapses to None. -/
def path_or_none : Option String → Option String
  | none => none
  | some p => if p = "" then none else some p

/-- Embedding of the first build_command definition (ZyButler.py line 271).
It validates variables, extracts references from the raw block with
parse_sttl_block, and tokenizes flags.  In Python this definition is
immediately shadowed by the redefinition at line 279 and is unreachable. -/
def build_command_first (vars_tokens : List String) (sttl_block : String)
    (path : Option String) (allow_empty_vars : Bool) (flags : List String) :
    Except String ZybotCommand := do
  let vars_list ← parse_vars vars_tokens allow_empty_vars
  let sttls ← parse_sttl_block sttl_block
  let flag_tokens ← parse_flags flags
  .ok { vars := vars_list, sttls := sttls, path := path_or_none path, flags := flag_tokens }

/-- Embedding of the effective build_command (ZyButler.py line 279, the
redefinition that shadows the first one): it accepts the reference ids as a
list and passes them through with no validation at all. -/
def build_command (vars_tokens : List String) (sttl_ids : List String)
    (path : Option String) (allow_empty_vars : Bool) (flags : List String) :
    Except String ZybotCommand := do
  let vars_list ← parse_vars vars_tokens allow_empty_vars
  let flag_tokens ← parse_flags flags
  .ok { vars := vars_list, sttls := sttl_ids, path := path_or_none path, flags := flag_tokens }

/-! Loose-mode extraction (parse_sttl_ids_any) and its regex model.  The
pattern is (?:STTL/STTL-|STTL-)?(\d{4,}) and re.findall scans left to
right, non-overlapping, trying the longer wrapper alternative first and
capturing a greedy maximal digit run of length at least 4. -/

/-- Leading digit run of a character list. -/
def leading_digits (l : List Char) : List Char :=
  l.takeWhile Char.isDigit

/-- One attempted match of the loose pattern at the current position:
returns the captured digit group and the total number of characters
consumed, mirroring the regex alternation order. -/
def try_sttl_match (l : List Char) : Option (List Char × Nat) :=
  if l.take 10 = "STTL/STTL-".data ∧ 4 ≤ (leading_digits (l.drop 10)).length then
    some (leading_digits (l.drop 10), 10 + (leading_digits (l.drop 10)).length)
  else if l.take 5 = "STTL-".data ∧ 4 ≤ (leading_digits (l.drop 5)).length then
    some (leading_digits (l.drop 5), 5 + (leading_digits (l.drop 5)).length)
  else if 4 ≤ (leading_digits l).length then
    some (leading_digits l, (leading_digits l).length)
  else none

/-- The re.findall scan: try a match at each position, jump over matches,
otherwise advance one character.  Fuel bounds the recursion and is fixed to
the input length, which every step strictly decreases. -/
def findall_fuel : Nat → List Char → List (List Char)
  | _, [] => []
  | 0, _ :: _ => []
  | fuel + 1, c :: rest =>
    match try_sttl_match (c :: rest) with
    | some (d, n) => d :: findall_fuel fuel ((c :: rest).drop n)
    | none => findall_fuel fuel rest

/-- All captured digit groups of the loose pattern over the input. -/
def findall_sttl (l : List Char) : List (List Char) :=
  findall_fuel l.length l

/-- Deduplication loop of parse_sttl_ids_any: keep the first occurrence of
each canonical id, preserving order; seen is the set of ids kept so far. -/
def sttl_dedupe : List String → List String → List String
  | [], _ => []
  | sid :: rest, seen =>
    if sid ∈ seen then sttl_dedupe rest seen
    else sid :: sttl_dedupe rest (sid :: seen)

/-- Embedding of parse_sttl_ids_any: loose-mode reference extraction. -/
def parse_sttl_ids_any (raw : String) : List String :=
  sttl_dedupe ((findall_sttl raw.data).map (fun d => "STTL-" ++ String.mk d)) []

/-- Maximal digit runs of a character list, in order (fuel-bounded scan;
fuel is fixed to the input length, which every step strictly decreases). -/
def digit_runs_fuel : Nat → List Char → List (List Char)
  | _, [] => []
  | 0, _ :: _ => []
  | fuel + 1, c :: rest =>
    if c.isDigit then
      (c :: rest.takeWhile Char.isDigit) :: digit_runs_fuel fuel (rest.dropWhile Char.isDigit)
    else digit_runs_fuel fuel rest

/-- Maximal digit runs of a character list. -/
def digit_runs (l : List Char) : List (List Char) :=
  digit_runs_fuel l.length l

/-- Canonical ids of the tokens that match TOKEN_PATTERN, in order. -/
def canon_tokens (toks : List (List Char)) : List String :=
  toks.filterMap (fun t => (sttl_token_match t).map (fun ds => "STTL-" ++ String.mk ds))

/-! Argument-list shape.  The three per-item token groups of build_args. -/

/-- Tokens contributed by one variable: the -v marker then KEY:VALUE. -/
def var_args (kv : String × String) : List String :=
  ["-v", kv.1 ++ ":" ++ kv.2]

/-- Tokens contributed by one reference: the -t marker then the reference
with the star wildcard suffix. -/
def sttl_args (sid : String) : List String :=
  ["-t", sid ++ "*"]

/-- Tokens contributed by one reference in the display rendering: the -t
marker then the quoted wildcard pattern. -/
def quoted_sttl_args (sid : String) : List String :=
  ["-t", "\"" ++ (sid ++ "*") ++ "\""]

/-- Tokens contributed by the path field: the bare path exactly when it is
truthy in Python (present and non-empty). -/
def path_args : Option String → List String
  | some p => if p = "" then [] else [p]
  | none => []

theorem foldl_append_eq_concat_map {α : Type} (f : α → List String) :
    ∀ (l : List α) (init : List String),
      l.foldl (fun a x => a ++ f x) init = init ++ concat_map f l
  | [], _ => by simp [concat_map]
  | x :: xs, init => by
    simp only [List.foldl_cons, concat_map, foldl_append_eq_concat_map f xs (init ++ f x),
      List.append_assoc]

theorem foldl_var_args (l : List (String × String)) (init : List String) :
    l.foldl (fun a kv => a ++ ["-v", kv.1 ++ ":" ++ kv.2]) init = init ++ concat_map var_args l :=
  foldl_append_eq_concat_map var_args l init

theorem foldl_sttl_args (l : List String) (init : List String) :
    l.foldl (fun a sid => a ++ ["-t", sid ++ "*"]) init = init ++ concat_map sttl_args l :=
  foldl_append_eq_concat_map sttl_args l init

theorem build_args_concat (c : ZybotCommand) :
    c.build_args = ["zybot"] ++ c.flags ++ concat_map var_args c.vars ++
      concat_map sttl_args c.sttls ++ path_args c.path := by
  obtain ⟨vars, sttls, path, flags⟩ := c
  unfold ZybotCommand.build_args
  dsimp only
  rw [foldl_var_args, foldl_sttl_args]
  cases path with
  | none => simp [path_args, List.append_assoc]
  | some p =>
    by_cases hpe : p = "" <;> simp [path_args, hpe, List.append_assoc]

/-- C3: for every Command, build_args is exactly, in order: the base token
zybot; the flag tokens in supplied order; for each variable in order the
marker -v followed by KEY:VALUE; for each reference in order the marker -t
followed by the reference with the star wildcard suffix; and finally the
path as a bare token exactly when the optional path is present and
non-empty (Python truthiness of the field). -/
theorem build_args_order_spec (c : ZybotCommand) :
    c.build_args = ["zybot"] ++ c.flags ++ concat_map var_args c.vars ++
      concat_map sttl_args c.sttls ++ path_args c.path :=
  build_args_concat c

/-- C10: the device-key pattern accepts any decimal digit sequence as the
index, with no constraint that indices start at 1: parse_vars accepts the
token DUT0:ABCDEFGHIJ and stores the pair (DUT0, ABCDEFGHIJ). -/
theorem dut_index_zero_accepted :
    parse_vars ["DUT0:ABCDEFGHIJ"] false = .ok [("DUT0", "ABCDEFGHIJ")] ∧
    dut_key_match "DUT0".data = true := by
  constructor
  · rfl
  · rfl

/-- C1: the claim that constructing a Command with zero references always
fails is refuted by the code.  The effective build_command (the
redefinition at ZyButler.py line 279, which shadows the validating
definition at line 271) performs no reference validation: with an empty
reference list it returns a Command whose reference set is empty instead
of raising.  The shadowed first definition, which routes the block through
parse_sttl_block, does fail on a block with no references, matching the
spec's intent. -/
theorem build_command_empty_refs_code_bug :
    build_command [] [] none true [] =
      .ok { vars := [], sttls := [], path := none, flags := [] } ∧
    exOk (build_command_first [] "id:()" none true []) = false ∧
    exOk (build_command_first [] "" none true []) = false := by
  refine ⟨rfl, rfl, rfl⟩

/-! Display rendering lemmas. -/

theorem display_loop_cons_ne (a : String) (l : List String) (hb : (a == "-t") = false) :
    display_loop (a :: l) = a :: display_loop l := by
  cases l with
  | nil => simp [display_loop, hb]
  | cons x xs => simp [display_loop, hb]

theorem display_loop_cons_t (s : String) (l : List String) :
    display_loop ("-t" :: s :: l) = "-t" :: ("\"" ++ s ++ "\"") :: display_loop l := by
  simp only [display_loop, beq_self_eq_true, if_true]

theorem display_loop_t_nil : display_loop ["-t"] = ["-t"] := rfl

theorem display_loop_append_of_not_t :
    ∀ (l1 l2 : List String), "-t" ∉ l1 → display_loop (l1 ++ l2) = l1 ++ display_loop l2
  | [], _, _ => rfl
  | a :: l1, l2, h => by
    have ha : a ≠ "-t" := fun e => h (e ▸ List.mem_cons_self a l1)
    have hb : (a == "-t") = false := by simp [ha]
    simp only [List.cons_append]
    rw [display_loop_cons_ne a _ hb,
      display_loop_append_of_not_t l1 l2 (fun hm => h (List.mem_cons_of_mem _ hm))]

theorem mem_concat_map {α : Type} (f : α → List String) (a : String) :
    ∀ l : List α, a ∈ concat_map f l ↔ ∃ x ∈ l, a ∈ f x
  | [] => by simp [concat_map]
  | x :: xs => by
    simp [concat_map, mem_concat_map f a xs]

theorem colon_token_ne_dash_t (k v : String) : k ++ ":" ++ v ≠ "-t" := by
  intro h
  have hm : ':' ∈ (k ++ ":" ++ v).data := by
    rw [String.data_append, String.data_append]
    simp
  rw [h] at hm
  exact absurd hm (by decide)

theorem display_loop_vars (vars : List (String × String)) (l2 : List String) :
    display_loop (concat_map var_args vars ++ l2) =
      concat_map var_args vars ++ display_loop l2 := by
  apply display_loop_append_of_not_t
  intro hm
  obtain ⟨kv, _, hmem⟩ := (mem_concat_map var_args _ vars).mp hm
  unfold var_args at hmem
  rcases List.mem_cons.mp hmem with h1 | h1
  · exact absurd h1 (by decide)
  · rcases List.mem_cons.mp h1 with h2 | h2
    · exact colon_token_ne_dash_t kv.1 kv.2 h2.symm
    · exact absurd h2 (List.not_mem_nil _)

theorem display_loop_sttls (sttls : List String) (l2 : List String) :
    display_loop (concat_map sttl_args sttls ++ l2) =
      concat_map quoted_sttl_args sttls ++ display_loop l2 := by
  induction sttls with
  | nil => simp [concat_map]
  | cons s rest ih =>
    show display_loop ("-t" :: (s ++ "*") :: (concat_map sttl_args rest ++ l2)) = _
    rw [display_loop_cons_t, ih]
    simp [concat_map, quoted_sttl_args]

theorem display_loop_path (po : Option String) :
    display_loop (path_args po) = path_args po := by
  cases po with
  | none => rfl
  | some p =>
    by_cases hp : p = ""
    · simp [path_args, hp, display_loop]
    · by_cases ht : p = "-t"
      · subst ht
        simp [path_args, display_loop_t_nil]
      · have hb : (p == "-t") = false := by simp [ht]
        simp [path_args, hp, display_loop_cons_ne p [] hb, display_loop]

/-- C2: on the Command with variables [(DUT1, ABC1234567)], references
[STTL-238897], no path and no flags, the display rendering is exactly the
string zybot -v DUT1:ABC1234567 -t "STTL-238897*"; and in general, for any
Command whose flag tokens do not contain the reserved marker -t (guaranteed
for all validated flags), the display rendering is the argument list joined
by single spaces with the token following each -t marker wrapped in double
quotes. -/
theorem display_command_spec :
    (ZybotCommand.mk [("DUT1", "ABC1234567")] ["STTL-238897"] none []).display_command =
      "zybot -v DUT1:ABC1234567 -t \"STTL-238897*\"" ∧
    ∀ c : ZybotCommand, "-t" ∉ c.flags →
      c.display_command = join_spaces (["zybot"] ++ c.flags ++ concat_map var_args c.vars ++
        concat_map quoted_sttl_args c.sttls ++ path_args c.path) := by
  constructor
  · rfl
  · intro c h
    have h1 : "-t" ∉ ["zybot"] ++ c.flags := by
      intro hm
      rcases List.mem_append.mp hm with h2 | h2
      · exact absurd h2 (by decide)
      · exact h h2
    have hlist : display_loop c.build_args =
        ["zybot"] ++ c.flags ++ concat_map var_args c.vars ++
          concat_map quoted_sttl_args c.sttls ++ path_args c.path := by
      rw [build_args_concat]
      have hassoc : ["zybot"] ++ c.flags ++ concat_map var_args c.vars ++
          concat_map sttl_args c.sttls ++ path_args c.path =
          (["zybot"] ++ c.flags) ++ (concat_map var_args c.vars ++
            (concat_map sttl_args c.sttls ++ path_args c.path)) := by
        simp [List.append_assoc]
      rw [hassoc, display_loop_append_of_not_t _ _ h1, display_loop_vars,
        display_loop_sttls, display_loop_path]
      simp [List.append_assoc]
    show join_spaces (display_loop c.build_args) = _
    rw [hlist]

/-- Witness for C2's general part at a concrete Command with flags, two
token groups and a path. -/
theorem display_command_spec_witness :
    (ZybotCommand.mk [("DUT1", "ABC1234567")] ["STTL-238897"]
      (some "Tests\\Regression") ["-L", "TRACE"]).display_command =
      join_spaces (["zybot"] ++ ["-L", "TRACE"] ++
        concat_map var_args [("DUT1", "ABC1234567")] ++
        concat_map quoted_sttl_args ["STTL-238897"] ++
        path_args (some "Tests\\Regression")) :=
  display_command_spec.2 _ (by decide)

/-! Line-wrapping.  display_command never inserts line breaks: it is the
plain space-join of the (quoted) argument list. -/

theorem display_loop_no_newline :
    ∀ l : List String, (∀ t ∈ l, '\n' ∉ t.data) → ∀ t ∈ display_loop l, '\n' ∉ t.data
  | [], _, t, ht => absurd ht (List.not_mem_nil t)
  | a :: rest, h, t, ht => by
    by_cases hb : (a == "-t") = true
    · have ha : a = "-t" := by simpa using hb
      subst ha
      cases rest with
      | nil =>
        rw [display_loop_t_nil] at ht
        have ht2 : t = "-t" := by simpa using ht
        subst ht2
        exact h "-t" (List.mem_cons_self _ _)
      | cons pattern rest2 =>
        rw [display_loop_cons_t] at ht
        simp only [List.mem_cons] at ht
        rcases ht with h1 | h1 | h1
        · subst h1
          exact h "-t" (List.mem_cons_self _ _)
        · subst h1
          intro hmem
          rw [String.data_append, String.data_append] at hmem
          simp only [List.mem_append] at hmem
          rcases hmem with (hq | hq) | hq
          · exact absurd hq (by decide)
          · exact h pattern (List.mem_cons_of_mem _ (List.mem_cons_self _ _)) hq
          · exact absurd hq (by decide)
        · exact display_loop_no_newline rest2
            (fun u hu => h u (List.mem_cons_of_mem _ (List.mem_cons_of_mem _ hu))) t h1
    · have hbf : (a == "-t") = false := by
        rw [Bool.not_eq_true] at hb
        exact hb
      rw [display_loop_cons_ne a rest hbf] at ht
      rcases List.mem_cons.mp ht with h1 | h1
      · subst h1
        exact h t (List.mem_cons_self _ _)
      · exact display_loop_no_newline rest
          (fun u hu => h u (List.mem_cons_of_mem _ hu)) t h1

theorem join_spaces_no_newline :
    ∀ parts : List String, (∀ p ∈ parts, '\n' ∉ p.data) → '\n' ∉ (join_spaces parts).data
  | [], _ => by
    show '\n' ∉ ("" : String).data
    decide
  | [t], h => by
    show '\n' ∉ t.data
    exact h t (List.mem_cons_self t _)
  | t :: u :: rest, h => by
    show '\n' ∉ (t ++ " " ++ join_spaces (u :: rest)).data
    rw [String.data_append, String.data_append]
    intro hmem
    simp only [List.mem_append] at hmem
    rcases hmem with (h1 | h1) | h1
    · exact h t (List.mem_cons_self t _) h1
    · exact absurd h1 (by decide)
    · exact join_spaces_no_newline (u :: rest)
        (fun p hp => h p (List.mem_cons_of_mem _ hp)) h1

/-- C4 counterexample: a Command whose rendered string is far longer than
any plausible width threshold (more than 200 characters) whose displayed
output contains no line break at all, so the display rendering does not
wrap it across multiple lines.  No width threshold exists anywhere in the
code. -/
theorem display_no_wrap_counterexample :
    200 < ((ZybotCommand.mk
      [("DUT1", "ABC1234567"), ("DUT2", "ZX9QWERTYU"), ("DUT3", "ABCDEFGHIJ"),
        ("DUT4", "KLMNOPQRST")]
      ["STTL-238897", "STTL-127394", "STTL-999999", "STTL-888888", "STTL-777777"]
      (some "Tests\\Regression\\LongerPath")
      ["-L", "TRACE", "--outputdir", "Results"]).display_command).length ∧
    '\n' ∉ ((ZybotCommand.mk
      [("DUT1", "ABC1234567"), ("DUT2", "ZX9QWERTYU"), ("DUT3", "ABCDEFGHIJ"),
        ("DUT4", "KLMNOPQRST")]
      ["STTL-238897", "STTL-127394", "STTL-999999", "STTL-888888", "STTL-777777"]
      (some "Tests\\Regression\\LongerPath")
      ["-L", "TRACE", "--outputdir", "Results"]).display_command).data := by
  constructor
  · decide
  · decide

/-- C4 as amended: the display rendering never wraps.  For every Command
whose argument tokens contain no newline character, the displayed string is
a single line (contains no line break), regardless of its length. -/
theorem display_single_line_amended (c : ZybotCommand)
    (h : ∀ t ∈ c.build_args, '\n' ∉ t.data) : '\n' ∉ (c.display_command).data :=
  join_spaces_no_newline _ (display_loop_no_newline _ h)

/-- Witness for the amended C4 at a concrete Command. -/
theorem display_single_line_amended_witness :
    '\n' ∉ ((ZybotCommand.mk [("DUT1", "ABC1234567")] ["STTL-238897"]
      (some "Tests\\Regression") ["-L", "TRACE"]).display_command).data :=
  display_single_line_amended _ (by decide)

/-! Token validator lemmas. -/

/-- The normalized pair stored by parse_vars for one raw token: key
upper-cased, value as written. -/
def norm_pair (kv : String) : String × String :=
  (String.mk (upper_str (split_first_colon kv.data).1),
    String.mk (split_first_colon kv.data).2)

/-- A raw token that is a well-formed device-key token whose value is
alphanumeric of length at least MIN_SERIAL_LEN. -/
def valid_dut_token (kv : String) : Bool :=
  var_pair_match kv.data &&
    dut_key_match (upper_str (split_first_colon kv.data).1) &&
    value_isalnum (split_first_colon kv.data).2 &&
    decide (MIN_SERIAL_LEN ≤ (split_first_colon kv.data).2.length)

/-- A raw token on which the parse_vars loop succeeds: well formed, and
either a device key with a valid serial or an allow-listed key. -/
def good_token (kv : String) : Bool :=
  var_pair_match kv.data &&
    (if dut_key_match (upper_str (split_first_colon kv.data).1) then
      value_isalnum (split_first_colon kv.data).2 &&
        decide (MIN_SERIAL_LEN ≤ (split_first_colon kv.data).2.length)
    else decide (String.mk (upper_str (split_first_colon kv.data).1) ∈ ALLOWED_NON_DUT_KEYS))

theorem parse_vars_loop_cons_good (kv : String) (rest : List String)
    (h : good_token kv = true) :
    parse_vars_loop (kv :: rest) =
      match parse_vars_loop rest with
      | .error e => .error e
      | .ok more => .ok (norm_pair kv :: more) := by
  unfold good_token at h
  rw [Bool.and_eq_true] at h
  obtain ⟨h1, h2⟩ := h
  simp only [parse_vars_loop, h1, Bool.not_true, Bool.false_eq_true, if_false]
  by_cases hd : dut_key_match (upper_str (split_first_colon kv.data).1) = true
  · simp only [hd, if_true] at h2 ⊢
    rw [Bool.and_eq_true] at h2
    obtain ⟨hv, hlen'⟩ := h2
    have hlen : MIN_SERIAL_LEN ≤ (split_first_colon kv.data).2.length :=
      of_decide_eq_true hlen'
    have hlenf : decide ((split_first_colon kv.data).2.length < MIN_SERIAL_LEN) = false :=
      decide_eq_false (Nat.not_lt.mpr hlen)
    simp only [hv, Bool.not_true, hlenf, Bool.or_self, Bool.false_eq_true, if_false]
    cases hres : parse_vars_loop rest with
    | error e => rfl
    | ok more => rfl
  · rw [Bool.not_eq_true] at hd
    simp only [hd, Bool.false_eq_true, if_false] at h2 ⊢
    have hmem : String.mk (upper_str (split_first_colon kv.data).1) ∈ ALLOWED_NON_DUT_KEYS :=
      of_decide_eq_true h2
    rw [if_pos hmem]
    cases hres : parse_vars_loop rest with
    | error e => rfl
    | ok more => rfl

theorem valid_dut_imp_good (kv : String) (h : valid_dut_token kv = true) :
    good_token kv = true := by
  unfold valid_dut_token at h
  rw [Bool.and_eq_true, Bool.and_eq_true, Bool.and_eq_true] at h
  obtain ⟨⟨⟨h1, h2⟩, h3⟩, h4⟩ := h
  unfold good_token
  rw [Bool.and_eq_true]
  refine ⟨h1, ?_⟩
  simp only [h2, if_true]
  rw [Bool.and_eq_true]
  exact ⟨h3, h4⟩

theorem parse_vars_loop_all_valid :
    ∀ tokens : List String, (∀ kv ∈ tokens, valid_dut_token kv = true) →
      parse_vars_loop tokens = .ok (tokens.map norm_pair)
  | [], _ => rfl
  | kv :: rest, h => by
    rw [parse_vars_loop_cons_good kv rest
      (valid_dut_imp_good kv (h kv (List.mem_cons_self _ _)))]
    rw [parse_vars_loop_all_valid rest (fun u hu => h u (List.mem_cons_of_mem _ hu))]
    rfl

/-- C6: for every non-empty sequence of raw KEY:VALUE tokens in which each
token is a device-key token with alphanumeric value of length at least 10,
parse_vars succeeds for either value of the allow-empty flag, each stored
key is upper-cased, and the output is the per-token normalization mapped
over the input, so order and duplicate raw tokens are preserved with no
implicit de-duplication. -/
theorem parse_vars_valid_spec (tokens : List String) (b : Bool)
    (hne : tokens ≠ []) (hval : ∀ kv ∈ tokens, valid_dut_token kv = true) :
    parse_vars tokens b = .ok (tokens.map norm_pair) := by
  have hempty : tokens.isEmpty = false := by
    cases tokens with
    | nil => exact absurd rfl hne
    | cons a l => rfl
  unfold parse_vars
  simp only [hempty, Bool.false_eq_true, if_false]
  exact parse_vars_loop_all_valid tokens hval

/-- Witness for C6 at a duplicated concrete device token, showing that the
duplicate is preserved in order. -/
theorem parse_vars_valid_spec_witness :
    parse_vars ["DUT1:ABC1234567", "DUT1:ABC1234567"] false =
      .ok [("DUT1", "ABC1234567"), ("DUT1", "ABC1234567")] := by
  rw [parse_vars_valid_spec ["DUT1:ABC1234567", "DUT1:ABC1234567"] false
    (by decide) (by decide)]
  rfl

theorem parse_vars_loop_append_error (pre l : List String) (e : String)
    (hpre : ∀ t ∈ pre, good_token t = true) (h : parse_vars_loop l = .error e) :
    parse_vars_loop (pre ++ l) = .error e := by
  induction pre with
  | nil => simpa using h
  | cons a pre ih =>
    rw [List.cons_append, parse_vars_loop_cons_good a _ (hpre a (List.mem_cons_self _ _)),
      ih (fun t ht => hpre t (List.mem_cons_of_mem _ ht))]

theorem parse_vars_loop_bad_serial (kv : String) (rest : List String)
    (h1 : var_pair_match kv.data = true)
    (h2 : dut_key_match (upper_str (split_first_colon kv.data).1) = true)
    (h3 : value_isalnum (split_first_colon kv.data).2 = false ∨
      (split_first_colon kv.data).2.length < MIN_SERIAL_LEN) :
    parse_vars_loop (kv :: rest) =
      .error ("Invalid DUT serial for " ++ String.mk (split_first_colon kv.data).1 ++
        ": must be alphanumeric length >= " ++ toString MIN_SERIAL_LEN) := by
  simp only [parse_vars_loop, h1, Bool.not_true, Bool.false_eq_true, if_false]
  simp only [h2, if_true]
  have hcond : (!(value_isalnum (split_first_colon kv.data).2) ||
      decide ((split_first_colon kv.data).2.length < MIN_SERIAL_LEN)) = true := by
    rcases h3 with h3 | h3
    · simp [h3]
    · simp [h3]
  simp only [hcond, if_true]

theorem parse_vars_loop_unknown_key (kv : String) (rest : List String)
    (h1 : var_pair_match kv.data = true)
    (h2 : dut_key_match (upper_str (split_first_colon kv.data).1) = false)
    (h3 : String.mk (upper_str (split_first_colon kv.data).1) ∉ ALLOWED_NON_DUT_KEYS) :
    parse_vars_loop (kv :: rest) =
      .error ("Unknown variable key: " ++ String.mk (split_first_colon kv.data).1) := by
  simp only [parse_vars_loop, h1, Bool.not_true, Bool.false_eq_true, if_false]
  simp only [h2, Bool.false_eq_true, if_false]
  rw [if_neg h3]

theorem parse_vars_append_isEmpty_false (pre : List String) (kv : String)
    (rest : List String) : (pre ++ kv :: rest).isEmpty = false := by
  cases pre with
  | nil => rfl
  | cons a l => rfl

/-- C7: variable validation fails with the domain error for every
well-formed device-key token whose value is not alphanumeric or is shorter
than 10, whatever valid tokens precede it; it fails with the unknown-key
error for every well-formed token whose key is neither a device key nor in
the allow-list; and on the empty sequence it returns the empty result when
the allow-empty flag is set and otherwise the no-variables-provided
error. -/
theorem parse_vars_errors_spec :
    (∀ (pre : List String) (kv : String) (rest : List String) (b : Bool),
      (∀ t ∈ pre, good_token t = true) →
      var_pair_match kv.data = true →
      dut_key_match (upper_str (split_first_colon kv.data).1) = true →
      (value_isalnum (split_first_colon kv.data).2 = false ∨
        (split_first_colon kv.data).2.length < MIN_SERIAL_LEN) →
      parse_vars (pre ++ kv :: rest) b =
        .error ("Invalid DUT serial for " ++ String.mk (split_first_colon kv.data).1 ++
          ": must be alphanumeric length >= " ++ toString MIN_SERIAL_LEN)) ∧
    (∀ (pre : List String) (kv : String) (rest : List String) (b : Bool),
      (∀ t ∈ pre, good_token t = true) →
      var_pair_match kv.data = true →
      dut_key_match (upper_str (split_first_colon kv.data).1) = false →
      String.mk (upper_str (split_first_colon kv.data).1) ∉ ALLOWED_NON_DUT_KEYS →
      parse_vars (pre ++ kv :: rest) b =
        .error ("Unknown variable key: " ++ String.mk (split_first_colon kv.data).1)) ∧
    parse_vars [] true = .ok [] ∧
    parse_vars [] false = .error "No variables provided" := by
  refine ⟨?_, ?_, rfl, rfl⟩
  · intro pre kv rest b hpre h1 h2 h3
    unfold parse_vars
    simp only [parse_vars_append_isEmpty_false, Bool.false_eq_true, if_false]
    exact parse_vars_loop_append_error pre _ _ hpre
      (parse_vars_loop_bad_serial kv rest h1 h2 h3)
  · intro pre kv rest b hpre h1 h2 h3
    unfold parse_vars
    simp only [parse_vars_append_isEmpty_false, Bool.false_eq_true, if_false]
    exact parse_vars_loop_append_error pre _ _ hpre
      (parse_vars_loop_unknown_key kv rest h1 h2 h3)

/-- Witness for C7 at concrete bad tokens preceded by a valid token. -/
theorem parse_vars_errors_spec_witness :
    parse_vars ["TESTDIR:TRUE", "DUT1:short"] false =
      .error ("Invalid DUT serial for " ++ String.mk (split_first_colon "DUT1:short".data).1 ++
        ": must be alphanumeric length >= " ++ toString MIN_SERIAL_LEN) ∧
    parse_vars ["FOO:bar"] false =
      .error ("Unknown variable key: " ++ String.mk (split_first_colon "FOO:bar".data).1) :=
  ⟨parse_vars_errors_spec.1 ["TESTDIR:TRUE"] "DUT1:short" [] false (by decide) (by decide)
      (by decide) (Or.inr (by decide)),
    parse_vars_errors_spec.2.1 [] "FOO:bar" [] false (by decide) (by decide)
      (by decide) (by decide)⟩

/-! Flag tokenizer lemmas. -/

theorem check_flag_tokens_error (toks : List String)
    (h : "-v" ∈ toks ∨ "-t" ∈ toks) :
    ∃ t, (t = "-v" ∨ t = "-t") ∧
      check_flag_tokens toks =
        .error ("Disallowed token in --flag specification: " ++ t) := by
  induction toks with
  | nil => simp at h
  | cons a ts ih =>
    by_cases hres : (a == "-v" || a == "-t") = true
    · refine ⟨a, by simpa using hres, ?_⟩
      simp only [check_flag_tokens, hres, if_true]
    · have hne : ¬(a = "-v" ∨ a = "-t") := by simpa using hres
      have hav : a ≠ "-v" := fun e => hne (Or.inl e)
      have hat : a ≠ "-t" := fun e => hne (Or.inr e)
      have hmem : "-v" ∈ ts ∨ "-t" ∈ ts := by
        rcases h with h | h
        · rcases List.mem_cons.mp h with h1 | h1
          · exact absurd h1.symm hav
          · exact Or.inl h1
        · rcases List.mem_cons.mp h with h1 | h1
          · exact absurd h1.symm hat
          · exact Or.inr h1
      obtain ⟨t, hprop, herr⟩ := ih hmem
      refine ⟨t, hprop, ?_⟩
      have hcond : (a == "-v" || a == "-t") = false := by simp [hav, hat]
      simp only [check_flag_tokens, hcond, Bool.false_eq_true, if_false]
      rw [herr]
      rfl

theorem check_flag_tokens_ok (toks : List String)
    (h : "-v" ∉ toks ∧ "-t" ∉ toks) : check_flag_tokens toks = .ok toks := by
  induction toks with
  | nil => rfl
  | cons a ts ih =>
    have hav : a ≠ "-v" := fun e => h.1 (e ▸ List.mem_cons_self a ts)
    have hat : a ≠ "-t" := fun e => h.2 (e ▸ List.mem_cons_self a ts)
    have hcond : (a == "-v" || a == "-t") = false := by simp [hav, hat]
    simp only [check_flag_tokens, hcond, Bool.false_eq_true, if_false]
    rw [ih ⟨fun hm => h.1 (List.mem_cons_of_mem _ hm),
      fun hm => h.2 (List.mem_cons_of_mem _ hm)⟩]
    rfl

theorem parse_flags_skip_blank (spec : String) (rest : List String)
    (h : strip_chars spec.data = []) : parse_flags (spec :: rest) = parse_flags rest := by
  have hb : (strip_chars spec.data).isEmpty = true := by rw [h]; rfl
  simp only [parse_flags, hb, if_true]

theorem parse_flags_reserved :
    ∀ specs : List String,
      (∀ s ∈ specs, (shlex_split s).isSome = true) →
      (∃ s, s ∈ specs ∧ strip_chars s.data ≠ [] ∧ ∃ toks, shlex_split s = some toks ∧
        ("-v" ∈ toks ∨ "-t" ∈ toks)) →
      ∃ t, (t = "-v" ∨ t = "-t") ∧
        parse_flags specs = .error ("Disallowed token in --flag specification: " ++ t)
  | [], _, hbad => by
    obtain ⟨s, hs, _⟩ := hbad
    exact absurd hs (List.not_mem_nil s)
  | spec :: rest, hall, hbad => by
    by_cases hblank : (strip_chars spec.data).isEmpty = true
    · have hstrip : strip_chars spec.data = [] := List.isEmpty_iff.mp hblank
      obtain ⟨s, hs, hsne, htoks⟩ := hbad
      rcases List.mem_cons.mp hs with h1 | h1
      · subst h1
        exact absurd hstrip hsne
      · obtain ⟨t, hprop, herr⟩ := parse_flags_reserved rest
          (fun u hu => hall u (List.mem_cons_of_mem _ hu)) ⟨s, h1, hsne, htoks⟩
        refine ⟨t, hprop, ?_⟩
        rw [parse_flags_skip_blank spec rest hstrip]
        exact herr
    · have hsome := hall spec (List.mem_cons_self _ _)
      obtain ⟨toks0, htoks0⟩ := Option.isSome_iff_exists.mp hsome
      have hb : (strip_chars spec.data).isEmpty = false := by
        rw [Bool.not_eq_true] at hblank
        exact hblank
      by_cases hres : ("-v" ∈ toks0 ∨ "-t" ∈ toks0)
      · obtain ⟨t, hprop, herr⟩ := check_flag_tokens_error toks0 hres
        refine ⟨t, hprop, ?_⟩
        simp only [parse_flags, hb, Bool.false_eq_true, if_false, htoks0]
        rw [herr]
        rfl
      · obtain ⟨s, hs, hsne, toks, htoks, hmem⟩ := hbad
        have hsrest : s ∈ rest := by
          rcases List.mem_cons.mp hs with h1 | h1
          · subst h1
            rw [htoks0] at htoks
            injection htoks with htoks
            exact absurd (htoks ▸ hmem) hres
          · exact h1
        obtain ⟨t, hprop, herr⟩ := parse_flags_reserved rest
          (fun u hu => hall u (List.mem_cons_of_mem _ hu)) ⟨s, hsrest, hsne, toks, htoks, hmem⟩
        refine ⟨t, hprop, ?_⟩
        simp only [parse_flags, hb, Bool.false_eq_true, if_false, htoks0]
        rw [check_flag_tokens_ok toks0
          ⟨fun hm => hres (Or.inl hm), fun hm => hres (Or.inr hm)⟩]
        rw [herr]
        rfl

/-- C8: flag tokenization shell-splits each specification into individual
tokens (the specification -L TRACE yields exactly the two tokens -L and
TRACE), skips blank or whitespace-only specifications, and, whenever any
produced token equals a reserved marker -v or -t, fails the whole call
with an error naming the offending token. -/
theorem parse_flags_spec :
    parse_flags ["-L TRACE"] = .ok ["-L", "TRACE"] ∧
    (∀ (spec : String) (rest : List String), strip_chars spec.data = [] →
      parse_flags (spec :: rest) = parse_flags rest) ∧
    (∀ specs : List String,
      (∀ s ∈ specs, (shlex_split s).isSome = true) →
      (∃ s, s ∈ specs ∧ strip_chars s.data ≠ [] ∧ ∃ toks, shlex_split s = some toks ∧
        ("-v" ∈ toks ∨ "-t" ∈ toks)) →
      ∃ t, (t = "-v" ∨ t = "-t") ∧
        parse_flags specs = .error ("Disallowed token in --flag specification: " ++ t)) :=
  ⟨rfl, parse_flags_skip_blank, parse_flags_reserved⟩

/-- Witness for C8 at a concrete specification list containing a reserved
token. -/
theorem parse_flags_spec_witness :
    ∃ t, (t = "-v" ∨ t = "-t") ∧
      parse_flags ["-L TRACE", "a -v b"] =
        .error ("Disallowed token in --flag specification: " ++ t) :=
  parse_flags_spec.2.2 ["-L TRACE", "a -v b"] (by decide)
    ⟨"a -v b", by decide, by decide, ["a", "-v", "b"], by decide, Or.inl (by decide)⟩

/-! Strict-mode reference extraction lemmas. -/

theorem exOk_bind_ok (x : Except String (List String)) (f : List String → List String) :
    exOk (do
      let more ← x
      (Except.ok (f more) : Except String (List String))) = exOk x := by
  cases x with
  | error e => rfl
  | ok more => rfl

theorem forall_cons_of_match (tok : List Char) (rest : List (List Char)) (ds : List Char)
    (hm : sttl_token_match tok = some ds) :
    (∀ t ∈ rest, (sttl_token_match t).isSome = true) ↔
      (∀ t ∈ tok :: rest, (sttl_token_match t).isSome = true) := by
  constructor
  · intro h t ht
    rcases List.mem_cons.mp ht with h1 | h1
    · subst h1
      rw [hm]
      rfl
    · exact h t h1
  · intro h t ht
    exact h t (List.mem_cons_of_mem _ ht)

theorem sttl_loop_isOk_iff :
    ∀ (toks : List (List Char)) (seen : List String),
      exOk (sttl_loop toks seen) = true ↔
        ∀ t ∈ toks, (sttl_token_match t).isSome = true
  | [], seen => by simp [sttl_loop, exOk]
  | tok :: rest, seen => by
    cases hm : sttl_token_match tok with
    | none =>
      simp only [sttl_loop, hm]
      constructor
      · intro h
        exact absurd h (by simp [exOk])
      · intro h
        have h2 := h tok (List.mem_cons_self _ _)
        rw [hm] at h2
        exact absurd h2 (by simp)
    | some ds =>
      simp only [sttl_loop, hm]
      by_cases hmem : ("STTL-" ++ String.mk ds) ∈ seen
      · rw [if_pos hmem, sttl_loop_isOk_iff rest seen]
        exact forall_cons_of_match tok rest ds hm
      · rw [if_neg hmem, exOk_bind_ok, sttl_loop_isOk_iff rest _]
        exact forall_cons_of_match tok rest ds hm

theorem sttl_loop_dedupe :
    ∀ (toks : List (List Char)) (seen : List String),
      (∀ t ∈ toks, (sttl_token_match t).isSome = true) →
      sttl_loop toks seen = .ok (sttl_dedupe (canon_tokens toks) seen)
  | [], _, _ => rfl
  | tok :: rest, seen, h => by
    have hsome := h tok (List.mem_cons_self _ _)
    obtain ⟨ds, hm⟩ := Option.isSome_iff_exists.mp hsome
    have hcanon : canon_tokens (tok :: rest) =
        ("STTL-" ++ String.mk ds) :: canon_tokens rest := by
      simp [canon_tokens, hm]
    simp only [sttl_loop, hm, hcanon, sttl_dedupe]
    by_cases hmem : ("STTL-" ++ String.mk ds) ∈ seen
    · rw [if_pos hmem, if_pos hmem]
      exact sttl_loop_dedupe rest seen (fun t ht => h t (List.mem_cons_of_mem _ ht))
    · rw [if_neg hmem, if_neg hmem,
        sttl_loop_dedupe rest _ (fun t ht => h t (List.mem_cons_of_mem _ ht))]
      rfl

theorem dedupe_canon_ne_nil (toks : List (List Char)) (htne : toks ≠ [])
    (hallm : ∀ t ∈ toks, (sttl_token_match t).isSome = true) :
    sttl_dedupe (canon_tokens toks) [] ≠ [] := by
  cases toks with
  | nil => exact absurd rfl htne
  | cons tok rest =>
    have hsome := hallm tok (List.mem_cons_self _ _)
    obtain ⟨ds, hm⟩ := Option.isSome_iff_exists.mp hsome
    simp [canon_tokens, hm, sttl_dedupe]

theorem parse_sttl_block_isOk_iff (raw : String) :
    exOk (parse_sttl_block raw) = true ↔
      ∃ body, sttl_block_match (strip_chars raw.data) = some body ∧
        py_split_ws (strip_chars body) ≠ [] ∧
        ∀ t ∈ py_split_ws (strip_chars body), (sttl_token_match t).isSome = true := by
  cases hb : sttl_block_match (strip_chars raw.data) with
  | none =>
    simp only [parse_sttl_block, hb]
    constructor
    · intro h
      exact absurd h (by simp [exOk])
    · rintro ⟨body, hbody, _⟩
      exact absurd hbody (by simp)
  | some body0 =>
    simp only [parse_sttl_block, hb]
    constructor
    · intro h
      by_cases hsc : strip_chars body0 = []
      · rw [if_pos hsc] at h
        exact absurd h (by simp [exOk])
      · rw [if_neg hsc] at h
        cases hloop : sttl_loop (py_split_ws (strip_chars body0)) [] with
        | error e =>
          rw [hloop] at h
          exact absurd h (by simp [exOk])
        | ok ordered =>
          rw [hloop] at h
          dsimp only at h
          by_cases hord : ordered = []
          · rw [if_pos hord] at h
            exact absurd h (by simp [exOk])
          · have hallm : ∀ t ∈ py_split_ws (strip_chars body0),
                (sttl_token_match t).isSome = true := by
              apply (sttl_loop_isOk_iff _ []).mp
              rw [hloop]
              rfl
            have htne : py_split_ws (strip_chars body0) ≠ [] := by
              intro he
              rw [he] at hloop
              have h3 : (Except.ok ([] : List String) : Except String (List String)) =
                  .ok ordered := hloop
              have h2 : ([] : List String) = ordered := by injection h3
              exact hord h2.symm
            exact ⟨body0, rfl, htne, hallm⟩
    · rintro ⟨body, hbody, htne, hallm⟩
      have hbe : body0 = body := by injection hbody
      subst hbe
      have hsc : strip_chars body0 ≠ [] := fun he => htne (by rw [he]; rfl)
      rw [if_neg hsc, sttl_loop_dedupe _ [] hallm]
      dsimp only
      rw [if_neg (dedupe_canon_ne_nil _ (fun he => htne he) hallm)]
      rfl

theorem parse_sttl_block_ok_value (raw : String) (body : List Char)
    (hb : sttl_block_match (strip_chars raw.data) = some body)
    (htne : py_split_ws (strip_chars body) ≠ [])
    (hallm : ∀ t ∈ py_split_ws (strip_chars body), (sttl_token_match t).isSome = true) :
    parse_sttl_block raw =
      .ok (sttl_dedupe (canon_tokens (py_split_ws (strip_chars body))) []) := by
  simp only [parse_sttl_block, hb]
  have hsc : strip_chars body ≠ [] := fun he => htne (by rw [he]; rfl)
  rw [if_neg hsc, sttl_loop_dedupe _ [] hallm]
  dsimp only
  rw [if_neg (dedupe_canon_ne_nil _ (fun he => htne he) hallm)]

/-- C5: strict-mode extraction succeeds exactly when the stripped input
matches the single-line wrapper id:(...) and the body splits into a
non-empty list of whitespace tokens each matching STTL/STTL-digits; on
success the result is the canonical STTL-digits ids de-duplicated with the
first occurrence winning and first-seen order preserved (the concrete
duplicate example yields exactly [STTL-238897, STTL-127394]); a malformed
token, a missing wrapper, or an empty body fails the whole operation. -/
theorem parse_sttl_block_strict_spec :
    parse_sttl_block "id:(STTL/STTL-238897 STTL/STTL-238897 STTL/STTL-127394)" =
      .ok ["STTL-238897", "STTL-127394"] ∧
    parse_sttl_block "id:(STTL/STTL-abc)" = .error "Malformed STTL token: STTL/STTL-abc" ∧
    exOk (parse_sttl_block "STTL/STTL-238897 STTL/STTL-127394") = false ∧
    exOk (parse_sttl_block "id:()") = false ∧
    (∀ raw : String, exOk (parse_sttl_block raw) = true ↔
      ∃ body, sttl_block_match (strip_chars raw.data) = some body ∧
        py_split_ws (strip_chars body) ≠ [] ∧
        ∀ t ∈ py_split_ws (strip_chars body), (sttl_token_match t).isSome = true) ∧
    (∀ (raw : String) (body : List Char),
      sttl_block_match (strip_chars raw.data) = some body →
      py_split_ws (strip_chars body) ≠ [] →
      (∀ t ∈ py_split_ws (strip_chars body), (sttl_token_match t).isSome = true) →
      parse_sttl_block raw =
        .ok (sttl_dedupe (canon_tokens (py_split_ws (strip_chars body))) [])) :=
  ⟨rfl, rfl, rfl, rfl, parse_sttl_block_isOk_iff, parse_sttl_block_ok_value⟩

/-- Witness for C5's success characterization at a concrete block. -/
theorem parse_sttl_block_strict_spec_witness :
    parse_sttl_block "id:(STTL/STTL-1234 STTL/STTL-1234)" =
      .ok (sttl_dedupe (canon_tokens (py_split_ws
        (strip_chars ("STTL/STTL-1234 STTL/STTL-1234").data))) []) :=
  parse_sttl_block_strict_spec.2.2.2.2.2 "id:(STTL/STTL-1234 STTL/STTL-1234)"
    ("STTL/STTL-1234 STTL/STTL-1234").data (by decide) (by decide) (by decide)

/-! Loose-mode extraction lemmas: the findall scan over the pattern
(?:STTL/STTL-|STTL-)?(\d{4,}) captures exactly the maximal digit runs of
length at least 4, in order. -/

theorem leading_digits_eq (l : List Char) :
    leading_digits l = l.takeWhile Char.isDigit := rfl

theorem length_dropWhile_le (p : Char → Bool) :
    ∀ l : List Char, (l.dropWhile p).length ≤ l.length
  | [] => le_refl _
  | c :: rest => by
    by_cases hc : p c = true
    · rw [List.dropWhile_cons_of_pos hc]
      exact Nat.le_trans (length_dropWhile_le p rest) (Nat.le_succ _)
    · rw [List.dropWhile_cons_of_neg hc]

theorem try_sttl_match_pos (l : List Char) (d : List Char) (n : Nat)
    (h : try_sttl_match l = some (d, n)) : 0 < n := by
  unfold try_sttl_match at h
  split_ifs at h with h1 h2 h3
  · simp only [Option.some.injEq, Prod.mk.injEq] at h
    omega
  · simp only [Option.some.injEq, Prod.mk.injEq] at h
    omega
  · simp only [Option.some.injEq, Prod.mk.injEq] at h
    obtain ⟨-, hn⟩ := h
    omega

theorem findall_fuel_congr :
    ∀ (f1 f2 : Nat) (l : List Char), l.length ≤ f1 → l.length ≤ f2 →
      findall_fuel f1 l = findall_fuel f2 l
  | f1, f2, [], _, _ => by cases f1 <;> cases f2 <;> rfl
  | 0, _, c :: rest, h1, _ => by simp at h1
  | _ + 1, 0, c :: rest, _, h2 => by simp at h2
  | f1 + 1, f2 + 1, c :: rest, h1, h2 => by
    simp only [List.length_cons] at h1 h2
    cases heq : try_sttl_match (c :: rest) with
    | none =>
      simp only [findall_fuel, heq]
      exact findall_fuel_congr f1 f2 rest (by omega) (by omega)
    | some dn =>
      obtain ⟨d, n⟩ := dn
      have hn : 0 < n := try_sttl_match_pos _ d n heq
      simp only [findall_fuel, heq]
      have hd1 : ((c :: rest).drop n).length ≤ f1 := by
        rw [List.length_drop]
        simp only [List.length_cons]
        omega
      have hd2 : ((c :: rest).drop n).length ≤ f2 := by
        rw [List.length_drop]
        simp only [List.length_cons]
        omega
      rw [findall_fuel_congr f1 f2 _ hd1 hd2]

theorem findall_sttl_cons (c : Char) (rest : List Char) :
    findall_sttl (c :: rest) =
      match try_sttl_match (c :: rest) with
      | some (d, n) => d :: findall_sttl ((c :: rest).drop n)
      | none => findall_sttl rest := by
  show findall_fuel (rest.length + 1) (c :: rest) = _
  cases heq : try_sttl_match (c :: rest) with
  | none =>
    simp only [findall_fuel, heq]
    rfl
  | some dn =>
    obtain ⟨d, n⟩ := dn
    have hn : 0 < n := try_sttl_match_pos _ d n heq
    simp only [findall_fuel, heq]
    congr 1
    apply findall_fuel_congr
    · rw [List.length_drop]
      simp only [List.length_cons]
      omega
    · exact le_refl _

theorem digit_runs_fuel_congr :
    ∀ (f1 f2 : Nat) (l : List Char), l.length ≤ f1 → l.length ≤ f2 →
      digit_runs_fuel f1 l = digit_runs_fuel f2 l
  | f1, f2, [], _, _ => by cases f1 <;> cases f2 <;> rfl
  | 0, _, c :: rest, h1, _ => by simp at h1
  | _ + 1, 0, c :: rest, _, h2 => by simp at h2
  | f1 + 1, f2 + 1, c :: rest, h1, h2 => by
    simp only [List.length_cons] at h1 h2
    by_cases hc : c.isDigit = true
    · simp only [digit_runs_fuel, hc, if_true]
      congr 1
      apply digit_runs_fuel_congr
      · exact Nat.le_trans (length_dropWhile_le _ rest) (by omega)
      · exact Nat.le_trans (length_dropWhile_le _ rest) (by omega)
    · have hcf : c.isDigit = false := by
        rw [Bool.not_eq_true] at hc
        exact hc
      simp only [digit_runs_fuel, hcf, Bool.false_eq_true, if_false]
      exact digit_runs_fuel_congr f1 f2 rest (by omega) (by omega)

theorem digit_runs_cons (c : Char) (rest : List Char) :
    digit_runs (c :: rest) =
      if c.isDigit then
        (c :: rest.takeWhile Char.isDigit) :: digit_runs (rest.dropWhile Char.isDigit)
      else digit_runs rest := by
  show digit_runs_fuel (rest.length + 1) (c :: rest) = _
  by_cases hc : c.isDigit = true
  · simp only [digit_runs_fuel, hc, if_true]
    congr 1
    apply digit_runs_fuel_congr
    · exact length_dropWhile_le _ rest
    · exact le_refl _
  · have hcf : c.isDigit = false := by
      rw [Bool.not_eq_true] at hc
      exact hc
    simp only [digit_runs_fuel, hcf, Bool.false_eq_true, if_false]
    rfl

theorem digit_runs_nondigit_prefix :
    ∀ (pre t : List Char), (∀ c ∈ pre, c.isDigit = false) →
      digit_runs (pre ++ t) = digit_runs t
  | [], _, _ => rfl
  | c :: pre, t, h => by
    rw [List.cons_append, digit_runs_cons]
    have hc : c.isDigit = false := h c (List.mem_cons_self _ _)
    simp only [hc, Bool.false_eq_true, if_false]
    exact digit_runs_nondigit_prefix pre t (fun u hu => h u (List.mem_cons_of_mem _ hu))

theorem drop_length_takeWhile (p : Char → Bool) :
    ∀ l : List Char, l.drop (l.takeWhile p).length = l.dropWhile p
  | [] => rfl
  | c :: rest => by
    by_cases hc : p c = true
    · rw [List.takeWhile_cons_of_pos hc, List.dropWhile_cons_of_pos hc]
      simp only [List.length_cons]
      show rest.drop (rest.takeWhile p).length = rest.dropWhile p
      exact drop_length_takeWhile p rest
    · rw [List.takeWhile_cons_of_neg hc, List.dropWhile_cons_of_neg hc]
      rfl

theorem findall_skip_digits :
    ∀ l : List Char, (leading_digits l).length < 4 →
      findall_sttl l = findall_sttl (l.dropWhile Char.isDigit)
  | [], _ => rfl
  | c :: rest, h => by
    by_cases hc : c.isDigit = true
    · have hA : ¬((c :: rest).take 10 = "STTL/STTL-".data ∧
          4 ≤ (leading_digits ((c :: rest).drop 10)).length) := by
        rintro ⟨h10, -⟩
        have hstep : (c :: rest).take 10 = c :: rest.take 9 := rfl
        rw [hstep, show ("STTL/STTL-" : String).data =
          ['S', 'T', 'T', 'L', '/', 'S', 'T', 'T', 'L', '-'] from rfl] at h10
        have hhead : c = 'S' := ((List.cons.injEq _ _ _ _).mp h10).1
        rw [hhead] at hc
        exact absurd hc (by decide)
      have hB : ¬((c :: rest).take 5 = "STTL-".data ∧
          4 ≤ (leading_digits ((c :: rest).drop 5)).length) := by
        rintro ⟨h5, -⟩
        have hstep : (c :: rest).take 5 = c :: rest.take 4 := rfl
        rw [hstep, show ("STTL-" : String).data =
          ['S', 'T', 'T', 'L', '-'] from rfl] at h5
        have hhead : c = 'S' := ((List.cons.injEq _ _ _ _).mp h5).1
        rw [hhead] at hc
        exact absurd hc (by decide)
      have hC : ¬(4 ≤ (leading_digits (c :: rest)).length) := Nat.not_le.mpr h
      have htry : try_sttl_match (c :: rest) = none := by
        unfold try_sttl_match
        rw [if_neg hA, if_neg hB, if_neg hC]
      rw [findall_sttl_cons, htry, List.dropWhile_cons_of_pos hc]
      show findall_sttl rest = findall_sttl (rest.dropWhile Char.isDigit)
      apply findall_skip_digits rest
      rw [leading_digits_eq, List.takeWhile_cons_of_pos hc] at h
      simp only [List.length_cons] at h
      rw [leading_digits_eq]
      omega
    · rw [List.dropWhile_cons_of_neg hc]

theorem findall_eq_runs :
    ∀ (n : Nat) (l : List Char), l.length ≤ n →
      findall_sttl l = (digit_runs l).filter (fun r => 4 ≤ r.length)
  | _, [], _ => rfl
  | 0, c :: rest, h => by simp at h
  | n + 1, c :: rest, h => by
    simp only [List.length_cons] at h
    by_cases h1 : (c :: rest).take 10 = "STTL/STTL-".data ∧
        4 ≤ (leading_digits ((c :: rest).drop 10)).length
    · obtain ⟨h10, hlen⟩ := h1
      have htry : try_sttl_match (c :: rest) = some
          (leading_digits ((c :: rest).drop 10),
            10 + (leading_digits ((c :: rest).drop 10)).length) := by
        unfold try_sttl_match
        rw [if_pos ⟨h10, hlen⟩]
      rw [findall_sttl_cons, htry]
      dsimp only
      have hsplit : c :: rest = "STTL/STTL-".data ++ (c :: rest).drop 10 := by
        conv_lhs => rw [← List.take_append_drop 10 (c :: rest)]
        rw [h10]
      have hdr : digit_runs (c :: rest) = digit_runs ((c :: rest).drop 10) := by
        conv_lhs => rw [hsplit]
        exact digit_runs_nondigit_prefix _ _ (by decide)
      rw [hdr]
      cases htd : (c :: rest).drop 10 with
      | nil =>
        rw [htd, leading_digits_eq] at hlen
        simp at hlen
      | cons c0 t1 =>
        rw [htd] at hlen
        have hc0 : c0.isDigit = true := by
          by_cases hcd : c0.isDigit = true
          · exact hcd
          · rw [leading_digits_eq, List.takeWhile_cons_of_neg hcd] at hlen
            simp at hlen
        rw [← List.drop_drop, htd]
        rw [leading_digits_eq, drop_length_takeWhile]
        rw [digit_runs_cons]
        simp only [hc0, if_true]
        rw [List.takeWhile_cons_of_pos hc0, List.dropWhile_cons_of_pos hc0]
        have hkeep : decide (4 ≤ (c0 :: t1.takeWhile Char.isDigit).length) = true := by
          apply decide_eq_true
          rw [leading_digits_eq, List.takeWhile_cons_of_pos hc0] at hlen
          exact hlen
        simp only [List.filter_cons, hkeep, if_true]
        congr 1
        apply findall_eq_runs n
        have hlen2 := congrArg List.length htd
        rw [List.length_drop] at hlen2
        simp only [List.length_cons] at hlen2
        have hb := length_dropWhile_le Char.isDigit t1
        omega
    · by_cases h2 : (c :: rest).take 5 = "STTL-".data ∧
          4 ≤ (leading_digits ((c :: rest).drop 5)).length
      · obtain ⟨h5, hlen⟩ := h2
        have htry : try_sttl_match (c :: rest) = some
            (leading_digits ((c :: rest).drop 5),
              5 + (leading_digits ((c :: rest).drop 5)).length) := by
          unfold try_sttl_match
          rw [if_neg h1, if_pos ⟨h5, hlen⟩]
        rw [findall_sttl_cons, htry]
        dsimp only
        have hsplit : c :: rest = "STTL-".data ++ (c :: rest).drop 5 := by
          conv_lhs => rw [← List.take_append_drop 5 (c :: rest)]
          rw [h5]
        have hdr : digit_runs (c :: rest) = digit_runs ((c :: rest).drop 5) := by
          conv_lhs => rw [hsplit]
          exact digit_runs_nondigit_prefix _ _ (by decide)
        rw [hdr]
        cases htd : (c :: rest).drop 5 with
        | nil =>
          rw [htd, leading_digits_eq] at hlen
          simp at hlen
        | cons c0 t1 =>
          rw [htd] at hlen
          have hc0 : c0.isDigit = true := by
            by_cases hcd : c0.isDigit = true
            · exact hcd
            · rw [leading_digits_eq, List.takeWhile_cons_of_neg hcd] at hlen
              simp at hlen
          rw [← List.drop_drop, htd]
          rw [leading_digits_eq, drop_length_takeWhile]
          rw [digit_runs_cons]
          simp only [hc0, if_true]
          rw [List.takeWhile_cons_of_pos hc0, List.dropWhile_cons_of_pos hc0]
          have hkeep : decide (4 ≤ (c0 :: t1.takeWhile Char.isDigit).length) = true := by
            apply decide_eq_true
            rw [leading_digits_eq, List.takeWhile_cons_of_pos hc0] at hlen
            exact hlen
          simp only [List.filter_cons, hkeep, if_true]
          congr 1
          apply findall_eq_runs n
          have hlen2 := congrArg List.length htd
          rw [List.length_drop] at hlen2
          simp only [List.length_cons] at hlen2
          have hb := length_dropWhile_le Char.isDigit t1
          omega
      · by_cases h3 : 4 ≤ (leading_digits (c :: rest)).length
        · have htry : try_sttl_match (c :: rest) = some
              (leading_digits (c :: rest), (leading_digits (c :: rest)).length) := by
            unfold try_sttl_match
            rw [if_neg h1, if_neg h2, if_pos h3]
          have hc : c.isDigit = true := by
            by_cases hcd : c.isDigit = true
            · exact hcd
            · rw [leading_digits_eq, List.takeWhile_cons_of_neg hcd] at h3
              simp at h3
          rw [findall_sttl_cons, htry]
          dsimp only
          rw [leading_digits_eq, drop_length_takeWhile]
          rw [digit_runs_cons]
          simp only [hc, if_true]
          rw [List.takeWhile_cons_of_pos hc, List.dropWhile_cons_of_pos hc]
          have hkeep : decide (4 ≤ (c :: rest.takeWhile Char.isDigit).length) = true := by
            apply decide_eq_true
            rw [leading_digits_eq, List.takeWhile_cons_of_pos hc] at h3
            exact h3
          simp only [List.filter_cons, hkeep, if_true]
          congr 1
          apply findall_eq_runs n
          exact Nat.le_trans (length_dropWhile_le _ rest) (by omega)
        · have htry : try_sttl_match (c :: rest) = none := by
            unfold try_sttl_match
            rw [if_neg h1, if_neg h2, if_neg h3]
          rw [findall_sttl_cons, htry]
          dsimp only
          by_cases hc : c.isDigit = true
          · rw [digit_runs_cons]
            simp only [hc, if_true]
            rw [leading_digits_eq, List.takeWhile_cons_of_pos hc] at h3
            have hshort : decide (4 ≤ (c :: rest.takeWhile Char.isDigit).length) = false := by
              apply decide_eq_false
              exact h3
            simp only [List.filter_cons, hshort, Bool.false_eq_true, if_false]
            rw [findall_skip_digits rest (by
              rw [leading_digits_eq]
              simp only [List.length_cons] at h3
              omega)]
            apply findall_eq_runs n
            exact Nat.le_trans (length_dropWhile_le _ rest) (by omega)
          · have hcf : c.isDigit = false := by
              rw [Bool.not_eq_true] at hc
              exact hc
            rw [digit_runs_cons]
            simp only [hcf, Bool.false_eq_true, if_false]
            exact findall_eq_runs n rest (by omega)

theorem findall_sttl_eq_runs (l : List Char) :
    findall_sttl l = (digit_runs l).filter (fun r => 4 ≤ r.length) :=
  findall_eq_runs l.length l (le_refl _)

/-- C9: loose-mode extraction never fails: for every input it returns the
canonical STTL-digits id of each maximal run of 4 or more digits (the
optional id-wrapper prefix does not change the captured digits), in
first-seen order with duplicates by canonical form skipped; the concrete
free-text example yields exactly [STTL-123456, STTL-987654], and an input
with no candidate ids yields the empty list rather than an error. -/
theorem parse_sttl_ids_any_spec :
    parse_sttl_ids_any "foo 123456 bar STTL/STTL-987654 123456" =
      ["STTL-123456", "STTL-987654"] ∧
    parse_sttl_ids_any "no candidate ids here" = [] ∧
    ∀ raw : String, parse_sttl_ids_any raw =
      sttl_dedupe (((digit_runs raw.data).filter (fun r => 4 ≤ r.length)).map
        (fun d => "STTL-" ++ String.mk d)) [] := by
  refine ⟨rfl, rfl, ?_⟩
  intro raw
  unfold parse_sttl_ids_any
  rw [findall_sttl_eq_runs]

end ZyButler
